import Mathlib

/-!
Verification of the DataOps pipeline core (app/etl_ops.py, app/io_sources.py,
app/checks.py, app/spec_schema.py, app/catalog.py).

Python strings are embedded as `List Char`; `String` wrappers are provided where
the original function signature takes `str`.  External effects (the filesystem
glob, HTTP requests) are abstracted as explicit oracle parameters, so each
function is a pure Lean function of its inputs and of the observed world.
-/

deriving instance DecidableEq for Except

namespace DataOps

/-! ### Python string primitives -/

/-- The apostrophe character (`'`). -/
def squote : Char := Char.ofNat 39

/-- The double-quote character (`"`). -/
def dquote : Char := Char.ofNat 34

/-- Characters removed by Python's `strip("'\"")`. -/
def isQuoteChar (c : Char) : Bool := c == squote || c == dquote

/-- Python `s.strip()`: remove leading and trailing whitespace. -/
def py_strip_ws (s : List Char) : List Char :=
  ((s.dropWhile Char.isWhitespace).reverse.dropWhile Char.isWhitespace).reverse

/-- Python `s.strip("'\"")`: remove leading and trailing quote characters. -/
def py_strip_quotes (s : List Char) : List Char :=
  ((s.dropWhile isQuoteChar).reverse.dropWhile isQuoteChar).reverse

/-- Python `sep in s` (substring containment). -/
def containsSub (sep : List Char) : List Char → Bool
  | [] => sep.isEmpty
  | c :: rest => sep.isPrefixOf (c :: rest) || containsSub sep rest

/-- Python `s.split("==")`: split on every occurrence of the two-character
separator `==`, keeping empty pieces, exactly as `str.split` does. -/
def splitEqEq : List Char → List (List Char)
  | [] => [[]]
  | '=' :: '=' :: rest => [] :: splitEqEq rest
  | c :: rest =>
    match splitEqEq rest with
    | [] => [[c]]
    | g :: gs => (c :: g) :: gs

/-! ### etl_ops.evaluate_condition -/

/-- `evaluate_condition` from `app/etl_ops.py` (lines 8-22), on character lists:
`"true"` and `"false"` are literals; a condition containing the substring
`"env =="` is split on `"=="`, piece `[1]` is stripped of whitespace and of
quote characters and compared with the environment; anything else is `False`
(with a printed warning, which the embedding drops). -/
def evalCondChars (condition env : List Char) : Bool :=
  if condition = "true".data then true
  else if condition = "false".data then false
  else if containsSub "env ==".data condition then
    let target := py_strip_quotes (py_strip_ws ((splitEqEq condition).getD 1 []))
    decide (env = target)
  else false

/-- `evaluate_condition(condition, env)` on Lean strings. -/
def evaluate_condition (condition env : String) : Bool :=
  evalCondChars condition.data env.data

/-! ### Sources as runtime dictionaries, and the external world

`select_source`, `test_source_connectivity` and `extract` consume the spec as a
parsed dictionary (`spec['sources']`, `source['name']`, ...).  `SourceDict`
carries the keys those functions read.  `World` is the oracle for the two
effectful probes: the number of filesystem paths matching a glob pattern, and
the outcome of an HTTP HEAD request (status code, or a raised exception). -/

structure SourceDict where
  name : String
  type : String
  path : String
  base_url : String
  enabled_if : String
deriving DecidableEq

structure World where
  globMatches : String → Nat
  headResult : String → Except String Nat

/-- `test_file_exists` from `app/io_sources.py` (lines 10-13):
`len(glob.glob(pattern)) > 0`. -/
def test_file_exists (w : World) (pattern : String) : Bool :=
  decide (0 < w.globMatches pattern)

/-- Python `s.rstrip("/")`. -/
def py_rstrip_slash (s : String) : String :=
  String.mk (s.data.reverse.dropWhile (· == '/')).reverse

/-- Python `s.lstrip("/")`. -/
def py_lstrip_slash (s : String) : String :=
  String.mk (s.data.dropWhile (· == '/'))

/-- The URL probed for a REST source:
`source['base_url'].rstrip('/') + '/' + source['path'].lstrip('/')`. -/
def restProbeUrl (s : SourceDict) : String :=
  py_rstrip_slash s.base_url ++ "/" ++ py_lstrip_slash s.path

/-- `test_source_connectivity` from `app/etl_ops.py` (lines 50-67).  The
whole body runs under `try/except Exception: return False`; the only modelled
exception site is the HTTP HEAD request (`World.headResult .error`). -/
def test_source_connectivity (w : World) (s : SourceDict) : Bool :=
  if s.type == "file" then test_file_exists w s.path
  else if s.type == "rest" then
    match w.headResult (restProbeUrl s) with
    | .ok status => status == 200
    | .error _ => false
  else if s.type == "postgres" then true
  else false

/-! ### etl_ops.select_source -/

structure SourceRoutingConfig where
  primary : List String
deriving DecidableEq

structure SpecDict where
  sources : List SourceDict
  source_routing : SourceRoutingConfig

/-- `ValueError("No available sources found. Enabled: ..., Primary: ...")`
raised at the end of `select_source`, carrying the enabled source names and
the priority list. -/
inductive SelectError where
  | noAvailableSource (enabled : List String) (primary : List String)
deriving DecidableEq

/-- The inner loop of `select_source` (lines 38-44): scan the enabled sources
for one whose name matches, probing each match; a failed probe falls through
to the remaining candidates. -/
def scanEnabled (probe : SourceDict → Bool) (target : String) : List SourceDict → Bool
  | [] => false
  | s :: rest =>
    if s.name == target then
      if probe s then true else scanEnabled probe target rest
    else scanEnabled probe target rest

/-- The outer loop of `select_source` (line 37): first priority name whose
scan succeeds. -/
def selectLoop (probe : SourceDict → Bool) (enabled : List SourceDict) :
    List String → Option String
  | [] => none
  | n :: rest => if scanEnabled probe n enabled then some n else selectLoop probe enabled rest

/-- `select_source` from `app/etl_ops.py` (lines 24-48). -/
def select_source (spec : SpecDict) (env : String) (w : World) : Except SelectError String :=
  let enabled := spec.sources.filter (fun s => evaluate_condition s.enabled_if env)
  match selectLoop (test_source_connectivity w) enabled spec.source_routing.primary with
  | some n => .ok n
  | none => .error (.noAvailableSource (enabled.map (fun s => s.name)) spec.source_routing.primary)

/-! ### spec_schema.PipelineSpec

Typed value objects mirroring the pydantic models of `app/spec_schema.py`.
Construction runs the model's explicit validator (`validate_sources`, lines
87-91); pydantic's structural checks (required fields, the `type` regexes)
are discharged by the Lean types themselves. -/

structure ScheduleConfig where
  on_demand : Bool
  daily_02 : Bool
  weekly_mon_06 : Bool
deriving DecidableEq

structure PaginationConfig where
  param : String
  size : Nat
deriving DecidableEq

structure SinceConfig where
  field : String
  mode : String
deriving DecidableEq

inductive Source where
  | file (name path format : String) (enabled_if : String)
  | rest (name base_url path : String) (pagination : Option PaginationConfig)
      (since : Option SinceConfig) (enabled_if : String)
  | postgres (name conn_id table mode : String) (updated_at : Option String)
      (enabled_if : String)
deriving DecidableEq

structure TransformConfig where
  sql_file : String
  params : List (String × String)
deriving DecidableEq

structure SqliteOutput where
  path : String
  mode : String
  table : String
deriving DecidableEq

structure ParquetOutput where
  dir : String
  partition_by : List String
deriving DecidableEq

structure OutputsConfig where
  sqlite : Option SqliteOutput
  parquet : Option ParquetOutput
deriving DecidableEq

structure NullRatioCheck where
  columns : List String
  max : ℚ
deriving DecidableEq

structure ChecksConfig where
  min_rows : Int
  null_ratio : Option NullRatioCheck
deriving DecidableEq

structure PipelineSpec where
  pipeline_name : String
  schedule : ScheduleConfig
  profile : String
  sources : List Source
  source_routing : SourceRoutingConfig
  transform : TransformConfig
  outputs : OutputsConfig
  checks : ChecksConfig
deriving DecidableEq

/-- Constructing a `PipelineSpec`: pydantic runs the `validate_sources`
validator, which rejects an empty source list; no other field-level validator
is declared on the model. -/
def mkPipelineSpec (pipeline_name : String) (schedule : ScheduleConfig) (profile : String)
    (sources : List Source) (source_routing : SourceRoutingConfig)
    (transform : TransformConfig) (outputs : OutputsConfig) (checks : ChecksConfig) :
    Except String PipelineSpec :=
  if sources.isEmpty then .error "At least one source is required"
  else .ok ⟨pipeline_name, schedule, profile, sources, source_routing, transform, outputs, checks⟩

/-! ### checks.assert_min_rows and checks.assert_null_ratio

A dataset is a list of rows; a row maps column names to nullable values, so
`SELECT COUNT(*)` is the list length and `SELECT COUNT(col)` counts the rows
whose entry for `col` is present and non-null. -/

def Row : Type := List (String × Option String)

instance : DecidableEq Row := by unfold Row; infer_instance

/-- The value of column `c` in row `r` (`none` is SQL NULL). -/
def lookupCol (r : Row) (c : String) : Option String :=
  match List.lookup c r with
  | some v => v
  | none => none

/-- `SELECT COUNT(c) FROM ds`: number of rows with a non-null value in `c`. -/
def nonNullCount (ds : List Row) (c : String) : Nat :=
  (ds.filter (fun r => (lookupCol r c).isSome)).length

inductive QualityError where
  | rowCount (actual : Nat) (minimum : Int)
  | nullRatioExceeded (column : String)
deriving DecidableEq

/-- `assert_min_rows` from `app/checks.py` (lines 4-20): raise when
`actual_rows < min_rows`, otherwise the dataset passes through untouched. -/
def assert_min_rows (ds : List Row) (min_rows : Int) : Except QualityError (List Row) :=
  if (ds.length : Int) < min_rows then .error (.rowCount ds.length min_rows)
  else .ok ds

/-- `(COUNT(*) - COUNT(col)) * 1.0 / COUNT(*)`, the per-column null ratio
computed by `assert_null_ratio` (exact rational arithmetic in the model;
`mkRat a b` is the rational `a / b`). -/
def nullFraction (ds : List Row) (c : String) : ℚ :=
  mkRat (ds.length - nonNullCount ds c : ℕ) ds.length

/-- `assert_null_ratio` from `app/checks.py` (lines 22-52): for each listed
column in order, raise as soon as the column's null ratio exceeds the
maximum. -/
def assert_null_ratio (ds : List Row) (columns : List String) (max_ratio : ℚ) :
    Except QualityError Unit :=
  match columns with
  | [] => .ok ()
  | c :: rest =>
    if nullFraction ds c > max_ratio then .error (.nullRatioExceeded c)
    else assert_null_ratio ds rest max_ratio

/-! ### io_sources.rest_fetch

The HTTP layer is abstracted as an oracle `resp : Nat → Except String
(RestResponse α)` giving, for each page number, either the parsed JSON payload
of `requests.get(url, params={page_param: page, 'limit': page_size, ...})` or
a raised `requests.RequestException` (the request parameters are a function of
the page number alone: the `since` value is the constant `'2024-01-01'`). -/

/-- The response-shape dispatch of lines 79-87: a bare JSON list, a dict with
one of the envelope keys `data`/`results`/`items` holding a list, or a dict
without such a key (treated as a single record). -/
inductive RestResponse (α : Type) where
  | jsonList (records : List α)
  | envelope (records : List α)
  | single (record : α)
deriving DecidableEq

/-- The record list extracted from a response. -/
def RestResponse.toRecords {α : Type} : RestResponse α → List α
  | .jsonList rs => rs
  | .envelope rs => rs
  | .single r => [r]

/-- `pagination.get('size', 100) if pagination else 100`. -/
def pageSizeOf (pg : Option PaginationConfig) : Nat :=
  match pg with
  | some p => p.size
  | none => 100

inductive FetchError where
  | connectionFailed (msg : String)
  | noData
deriving DecidableEq

/-- The `while True` loop of `rest_fetch` (lines 63-106), returning the
accumulated records (or the transport error) together with the number of HTTP
requests performed.  The loop body mirrors the source exactly; the `fuel`
argument is only a structural-termination device: the caller passes
`fuel = 101 - page`, which the recursion preserves, and since the loop stops
as soon as `page + 1 > 100` the `fuel = 0` branch is unreachable. -/
def restFetchGo {α : Type} (resp : Nat → Except String (RestResponse α))
    (pg : Option PaginationConfig) :
    Nat → Nat → List α → Except String (List α) × Nat
  | 0, _, acc => (.ok acc, 0)
  | fuel + 1, page, acc =>
    match resp page with
    | .error e => (.error e, 1)
    | .ok r =>
      let records := r.toRecords
      if records.isEmpty then (.ok acc, 1)
      else
        let acc2 := acc ++ records
        if pg.isNone || records.length < pageSizeOf pg then (.ok acc2, 1)
        else if page + 1 > 100 then (.ok acc2, 1)
        else
          let rest := restFetchGo resp pg fuel (page + 1) acc2
          (rest.1, rest.2 + 1)

/-- `rest_fetch` from `app/io_sources.py` (lines 50-121): run the pagination
loop from `page = 1`; a `requests.RequestException` becomes a
`ConnectionError`, and zero accumulated records become the
`ValueError("No data received ...")` (`FetchError.noData`). -/
def rest_fetch {α : Type} (resp : Nat → Except String (RestResponse α))
    (pg : Option PaginationConfig) : Except FetchError (List α) :=
  match (restFetchGo resp pg 100 1 []).1 with
  | .error e => .error (.connectionFailed e)
  | .ok all_data => if all_data.isEmpty then .error .noData else .ok all_data

/-! ### etl_ops.run_sql -/

def lbrace : Char := Char.ofNat 123

def rbrace : Char := Char.ofNat 125

/-- The literal text `${key}`. -/
def placeholder (key : List Char) : List Char := '$' :: lbrace :: (key ++ [rbrace])

/-- Python `s.replace(pat, rep)` for a non-empty `pat`: scan left to right,
replacing each (non-overlapping) occurrence.  `fuel` is a structural
termination device; `py_replace` passes `fuel = s.length`, which dominates the
length of every recursive argument, so the `fuel = 0` branch is unreachable. -/
def replaceGo (pat rep : List Char) : Nat → List Char → List Char
  | _, [] => []
  | 0, s => s
  | fuel + 1, c :: rest =>
    if pat.isPrefixOf (c :: rest) then rep ++ replaceGo pat rep fuel ((c :: rest).drop pat.length)
    else c :: replaceGo pat rep fuel rest

/-- Python `s.replace(pat, rep)`. -/
def py_replace (s pat rep : List Char) : List Char := replaceGo pat rep s.length s

/-- The parameter-substitution loop of `run_sql` (lines 104-106):
`for key, value in params.items(): sql = sql.replace("${" + key + "}", value)`
(dictionary iteration order is insertion order, hence a list of pairs). -/
def substParams (template : List Char) (params : List (List Char × List Char)) : List Char :=
  params.foldl (fun sql kv => py_replace sql (placeholder kv.1) kv.2) template

/-- What `run_sql` executes: a view named `source_data` bound to the extracted
dataset file, and the substituted transform query run against it (lines
114-120); the materialization of the result to a parquet file is I/O outside
the model. -/
structure SqlExecution where
  viewName : String
  viewSource : String
  query : List Char
deriving DecidableEq

/-- `run_sql` from `app/etl_ops.py` (lines 96-125), with the template text
(the content of `sql_path`) passed directly. -/
def run_sql (data_path : String) (sql_template : List Char)
    (params : List (List Char × List Char)) : SqlExecution :=
  ⟨"source_data", data_path, substParams sql_template params⟩

/-! ### catalog.record_run and catalog.get_pipeline_runs

The SQLite store is `Option (List RunRow)`: `none` when the catalog database
file does not exist, `some rows` for the `runs` table in insertion order.
`json.dumps` / `json.loads` on a list of path strings are embedded concretely
for the grammar they exchange (`["p1", "p2"]`, with `json.dumps`'s default
`", "` separator). -/

/-- Concatenate pieces with a separator (the shape `json.dumps` produces). -/
def interc (sep : List Char) : List (List Char) → List Char
  | [] => []
  | [p] => p
  | p :: ps => p ++ sep ++ interc sep ps

/-- `json.dumps` of one path string (no escaping: valid for paths free of
`"` and `\`). -/
def jsonQuote (s : List Char) : List Char := dquote :: (s ++ [dquote])

/-- `json.dumps(paths)` for a list of strings. -/
def json_dumps_list (paths : List (List Char)) : List Char :=
  '[' :: (interc [',', ' '] (paths.map jsonQuote) ++ [']'])

/-- Split on the two-character separator `", "`. -/
def splitCommaSpace : List Char → List (List Char)
  | [] => [[]]
  | ',' :: ' ' :: rest => [] :: splitCommaSpace rest
  | c :: rest =>
    match splitCommaSpace rest with
    | [] => [[c]]
    | g :: gs => (c :: g) :: gs

/-- An item of the serialized list: a double-quoted string. -/
def isQuotedItem (item : List Char) : Bool :=
  decide (2 ≤ item.length) && (item.head? == some dquote) && (item.getLast? == some dquote)

/-- Strip the surrounding double quotes of an item. -/
def unquoteItem (item : List Char) : List Char := (item.drop 1).dropLast

/-- `json.loads` on the string-list grammar produced by `json_dumps_list`;
`none` models a raised `json.JSONDecodeError`. -/
def json_loads_list (s : List Char) : Option (List (List Char)) :=
  match s with
  | [] => none
  | c :: rest =>
    if c = '[' then
      if rest = [']'] then some []
      else if rest.getLast? == some ']' then
        let items := splitCommaSpace rest.dropLast
        if items.all isQuotedItem then some (items.map unquoteItem) else none
      else none
    else none

/-- One row of the `runs` table (`output_paths` is the stored TEXT column). -/
structure RunRow where
  run_id : Nat
  pipeline : String
  status : String
  rows_out : Option Int
  output_paths : List Char
  started_at : Option Nat
  ended_at : Option Nat
  duration_seconds : Option Int
  error_message : Option String
deriving DecidableEq

/-- `init_catalog_db` from `app/catalog.py` (lines 7-32): `CREATE TABLE IF NOT
EXISTS` — existing rows are preserved, a missing database becomes an empty
table. -/
def init_catalog_db (db : Option (List RunRow)) : Option (List RunRow) :=
  some (db.getD [])

/-- `record_run` from `app/catalog.py` (lines 34-70): initialize the catalog,
derive the duration when both timestamps are present, serialize
`output_paths or []`, and insert one row (`run_id` is the SQLite
autoincrement: one more than the number of existing rows of this append-only
table). -/
def record_run (db : Option (List RunRow)) (pipeline status : String)
    (rows_out : Option Int) (output_paths : Option (List (List Char)))
    (started_at ended_at : Option Nat) (error_message : Option String) :
    Option (List RunRow) :=
  let rows := (init_catalog_db db).getD []
  let duration_seconds : Option Int :=
    match started_at, ended_at with
    | some s, some e => some ((e : Int) - (s : Int))
    | _, _ => none
  let output_paths_json := json_dumps_list (output_paths.getD [])
  some (rows ++ [⟨rows.length + 1, pipeline, status, rows_out, output_paths_json,
    started_at, ended_at, duration_seconds, error_message⟩])

/-- SQLite ordering on the nullable `started_at` column (NULL sorts below
every value). -/
def tsLe : Option Nat → Option Nat → Bool
  | none, _ => true
  | some _, none => false
  | some a, some b => decide (a ≤ b)

/-- Insertion step of `ORDER BY started_at DESC`. -/
def insertDescRun (r : RunRow) : List RunRow → List RunRow
  | [] => [r]
  | x :: xs => if tsLe x.started_at r.started_at then r :: x :: xs else x :: insertDescRun r xs

/-- `ORDER BY started_at DESC` (SQLite fixes no order among equal keys; this
insertion sort is one valid refinement, and the theorems below only use it on
rows with pairwise distinct keys, where the order is unique). -/
def orderByStartedDesc : List RunRow → List RunRow
  | [] => []
  | r :: rs => insertDescRun r (orderByStartedDesc rs)

/-- A run as returned by `get_pipeline_runs`: the stored row with
`output_paths` deserialized back to a list. -/
structure RunOut where
  run_id : Nat
  pipeline : String
  status : String
  rows_out : Option Int
  output_paths : List (List Char)
  started_at : Option Nat
  ended_at : Option Nat
  duration_seconds : Option Int
  error_message : Option String
deriving DecidableEq

/-- `run['output_paths'] = json.loads(run['output_paths'] or '[]')` (line 92).
Rows written by `record_run` always store well-formed JSON, so the
`json.loads` exception case (`none`) cannot occur for them. -/
def rowToOut (r : RunRow) : RunOut :=
  let txt := if r.output_paths.isEmpty then ['[', ']'] else r.output_paths
  ⟨r.run_id, r.pipeline, r.status, r.rows_out, (json_loads_list txt).getD [],
    r.started_at, r.ended_at, r.duration_seconds, r.error_message⟩

/-- `get_pipeline_runs` from `app/catalog.py` (lines 72-95): empty list when
the database file does not exist; otherwise
`SELECT * FROM runs WHERE pipeline = ? ORDER BY started_at DESC LIMIT ?`
with output paths deserialized. -/
def get_pipeline_runs (db : Option (List RunRow)) (pipeline : String) (limit : Nat) :
    List RunOut :=
  match db with
  | none => []
  | some rows =>
    (((orderByStartedDesc (rows.filter (fun r => r.pipeline == pipeline))).take limit).map
      rowToOut)

/-! ### Concrete fixtures used by the claim theorems and witnesses -/

def sampleSchedule : ScheduleConfig := ⟨true, false, false⟩

def sampleSource : Source := .file "orders_csv" "./data/*.csv" "csv" "true"

def sampleRouting : SourceRoutingConfig := ⟨["orders_csv"]⟩

def sampleTransform : TransformConfig := ⟨"transform.sql", []⟩

def sampleOutputs : OutputsConfig := ⟨none, none⟩

def sampleChecks : ChecksConfig := ⟨1, none⟩

/-- File sources named `A` and `B`, both enabled unconditionally. -/
def srcA : SourceDict := ⟨"A", "file", "./a.csv", "", "true"⟩

def srcB : SourceDict := ⟨"B", "file", "./b.csv", "", "true"⟩

def specAB : SpecDict := ⟨[srcA, srcB], ⟨["A", "B"]⟩⟩

/-- World where only `./b.csv` exists. -/
def wOnlyB : World := ⟨fun p => if p = "./b.csv" then 1 else 0, fun _ => .error "no network"⟩

/-- World where every glob matches. -/
def wBothAB : World := ⟨fun _ => 1, fun _ => .error "no network"⟩

/-- World where nothing is reachable. -/
def wNothing : World := ⟨fun _ => 0, fun _ => .error "no network"⟩

/-! ### C1: source selection -/

theorem scanEnabled_eq_any (probe : SourceDict → Bool) (target : String)
    (l : List SourceDict) :
    scanEnabled probe target l = l.any (fun s => s.name == target && probe s) := by
  induction l with
  | nil => rfl
  | cons s rest ih =>
    simp only [scanEnabled, List.any_cons, ih]
    cases hname : s.name == target <;> cases hp : probe s <;> simp [hname, hp]

theorem selectLoop_eq_find (probe : SourceDict → Bool) (enabled : List SourceDict)
    (names : List String) :
    selectLoop probe enabled names
      = names.find? (fun n => enabled.any (fun s => s.name == n && probe s)) := by
  induction names with
  | nil => rfl
  | cons n rest ih =>
    simp only [selectLoop, scanEnabled_eq_any, ih, List.find?]
    cases h : enabled.any (fun s => s.name == n && probe s) <;> simp

/-- C1: `select_source` returns the first name of `source_routing.primary`
for which some source with that name is enabled for the environment and
passes the connectivity probe; when no priority name has such a source it
fails with the enabled-source names and the priority list.  Concretely, with
sources `[A(unreachable), B(reachable)]` and priority `[A, B]` it returns
`B`; with both reachable it returns `A`; with neither reachable it raises
the diagnostic error. -/
theorem select_source_spec :
    (∀ (spec : SpecDict) (env : String) (w : World),
      select_source spec env w =
        match spec.source_routing.primary.find?
            (fun n => (spec.sources.filter (fun s => evaluate_condition s.enabled_if env)).any
              (fun s => s.name == n && test_source_connectivity w s)) with
        | some n => .ok n
        | none => .error (.noAvailableSource
            ((spec.sources.filter (fun s => evaluate_condition s.enabled_if env)).map
              (fun s => s.name))
            spec.source_routing.primary)) ∧
    select_source specAB "dev" wOnlyB = .ok "B" ∧
    select_source specAB "dev" wBothAB = .ok "A" ∧
    select_source specAB "dev" wNothing = .error (.noAvailableSource ["A", "B"] ["A", "B"]) := by
  refine ⟨fun spec env w => ?_, by decide, by decide, by decide⟩
  simp only [select_source, selectLoop_eq_find]

/-! ### C9, C10: the connectivity probe -/

/-- C9: the probe is a total boolean function of the observed world: a file
source is reachable iff its glob pattern matches at least one path, a
postgres source is unconditionally reachable, and a REST probe whose HEAD
request raises is unreachable rather than an error. -/
theorem test_source_connectivity_total (w : World) (s : SourceDict) :
    (s.type = "file" → test_source_connectivity w s = decide (0 < w.globMatches s.path)) ∧
    (s.type = "postgres" → test_source_connectivity w s = true) ∧
    (∀ e : String, s.type = "rest" → w.headResult (restProbeUrl s) = .error e →
      test_source_connectivity w s = false) := by
  refine ⟨fun h => ?_, fun h => ?_, fun e h he => ?_⟩
  · simp [test_source_connectivity, test_file_exists, h]
  · simp [test_source_connectivity, h]
  · simp [test_source_connectivity, h, he]

/-- Witness for C9: a matching glob is reachable, a non-matching one is not,
postgres always is, and a raising HEAD request is not. -/
theorem test_source_connectivity_total_witness :
    (srcB.type = "file" ∧ test_source_connectivity wOnlyB srcB = true) ∧
    (srcA.type = "file" ∧ test_source_connectivity wOnlyB srcA = false) ∧
    test_source_connectivity wOnlyB ⟨"pg", "postgres", "", "", "true"⟩ = true ∧
    test_source_connectivity wOnlyB ⟨"api", "rest", "/v1/data", "http://x", "true"⟩ = false := by
  refine ⟨⟨rfl, ?_⟩, ⟨rfl, ?_⟩, ?_, ?_⟩
  · rw [(test_source_connectivity_total wOnlyB srcB).1 rfl]; decide
  · rw [(test_source_connectivity_total wOnlyB srcA).1 rfl]; decide
  · exact (test_source_connectivity_total wOnlyB ⟨"pg", "postgres", "", "", "true"⟩).2.1 rfl
  · exact (test_source_connectivity_total wOnlyB
      ⟨"api", "rest", "/v1/data", "http://x", "true"⟩).2.2 "no network" rfl rfl

/-- C10: a REST source is reachable iff the HEAD request completes without an
exception and returns status exactly 200. -/
theorem test_source_connectivity_rest (w : World) (s : SourceDict) (h : s.type = "rest") :
    test_source_connectivity w s =
      (match w.headResult (restProbeUrl s) with
       | .ok status => status == 200
       | .error _ => false) := by
  simp [test_source_connectivity, h]

def wOk200 : World := ⟨fun _ => 0, fun _ => .ok 200⟩

def wRedirect : World := ⟨fun _ => 0, fun _ => .ok 301⟩

def srcRest : SourceDict := ⟨"api", "rest", "/v1/data", "https://api.example.com", "true"⟩

/-- Witness for C10: status 200 is reachable, a 301 redirect is not. -/
theorem test_source_connectivity_rest_witness :
    srcRest.type = "rest" ∧
    test_source_connectivity wOk200 srcRest = true ∧
    test_source_connectivity wRedirect srcRest = false := by
  refine ⟨rfl, ?_, ?_⟩
  · rw [test_source_connectivity_rest wOk200 srcRest rfl]; decide
  · rw [test_source_connectivity_rest wRedirect srcRest rfl]; decide

/-! ### C4: PipelineSpec construction -/

/-- C4 counterexample: a spec whose `pipeline_name` is the empty string
constructs successfully (no validator rejects it), contradicting the claim
that construction fails whenever `pipeline_name` is empty. -/
theorem mkPipelineSpec_empty_name_ok :
    (mkPipelineSpec "" sampleSchedule "dev" [sampleSource] sampleRouting sampleTransform
      sampleOutputs sampleChecks).isOk = true := by decide

/-- C4 (amended): constructing a `PipelineSpec` fails iff the source list is
empty; `pipeline_name` (empty or not) is not validated. -/
theorem mkPipelineSpec_isOk (pipeline_name : String) (schedule : ScheduleConfig)
    (profile : String) (sources : List Source) (source_routing : SourceRoutingConfig)
    (transform : TransformConfig) (outputs : OutputsConfig) (checks : ChecksConfig) :
    (mkPipelineSpec pipeline_name schedule profile sources source_routing transform
      outputs checks).isOk = !sources.isEmpty := by
  unfold mkPipelineSpec
  cases sources <;> simp [Except.isOk, Except.toBool]

/-! ### C5: assert_min_rows -/

/-- C5: `assert_min_rows` fails iff the dataset's row count is strictly below
the threshold, and on success returns the dataset unchanged. -/
theorem assert_min_rows_iff (ds : List Row) (min_rows : Int) :
    ((assert_min_rows ds min_rows).isOk ↔ ¬((ds.length : Int) < min_rows)) ∧
    (¬((ds.length : Int) < min_rows) → assert_min_rows ds min_rows = .ok ds) := by
  constructor
  · unfold assert_min_rows
    split <;> simp_all [Except.isOk, Except.toBool]
  · intro h
    unfold assert_min_rows
    simp [h]

def emptyRow : Row := [("a", some "v")]

/-- A five-row dataset. -/
def dsFive : List Row := [emptyRow, emptyRow, emptyRow, emptyRow, emptyRow]

/-- Witness for C5: 5 rows with `min_rows = 1` passes (dataset unchanged);
0 rows with `min_rows = 1` fails. -/
theorem assert_min_rows_iff_witness :
    (¬((dsFive.length : Int) < 1) ∧ assert_min_rows dsFive 1 = .ok dsFive) ∧
    (assert_min_rows ([] : List Row) 1).isOk = false :=
  ⟨⟨by decide, (assert_min_rows_iff dsFive 1).2 (by decide)⟩, by decide⟩

/-! ### C6: assert_null_ratio -/

/-- C6: on a non-empty dataset, `assert_null_ratio` passes iff every
configured column's null ratio `(total_rows - non_null_rows) / total_rows` is
at most the maximum (equivalently, it fails iff some column's ratio strictly
exceeds it). -/
theorem assert_null_ratio_iff (ds : List Row) (columns : List String) (max_ratio : ℚ)
    (_hne : ds ≠ []) :
    (assert_null_ratio ds columns max_ratio).isOk ↔
      ∀ c ∈ columns, nullFraction ds c ≤ max_ratio := by
  induction columns with
  | nil => simp [assert_null_ratio, Except.isOk, Except.toBool]
  | cons c rest ih =>
    simp only [assert_null_ratio]
    split
    · rename_i hgt
      simp only [Except.isOk, Except.toBool]
      constructor
      · intro h; cases h
      · intro h
        exact absurd (h c (by simp)) (not_le.mpr hgt)
    · rename_i hle
      rw [ih]
      constructor
      · intro h d hd
        rcases List.mem_cons.mp hd with h1 | h2
        · exact h1 ▸ not_lt.mp hle
        · exact h d h2
      · intro h d hd
        exact h d (List.mem_cons_of_mem c hd)

/-- A four-row dataset whose column `a` is null in 2 of 4 rows. -/
def dsFour : List Row :=
  [[("a", some "1")], [("a", none)], [("a", some "2")], [("a", none)]]

/-- Witness for C6: 2 nulls out of 4 rows fails with `max_ratio = 0` and
passes with `max_ratio = 1/2`. -/
theorem assert_null_ratio_iff_witness :
    dsFour ≠ [] ∧
    ((assert_null_ratio dsFour ["a"] 0).isOk ↔ ∀ c ∈ ["a"], nullFraction dsFour c ≤ 0) ∧
    (assert_null_ratio dsFour ["a"] 0).isOk = false ∧
    (assert_null_ratio dsFour ["a"] (mkRat 1 2)).isOk = true :=
  ⟨by decide, assert_null_ratio_iff dsFour ["a"] 0 (by decide), by decide, by decide⟩

/-! ### C2: the condition evaluator

Helper lemmas about the embedded `str.split("==")` and the strips. -/

theorem containsSub_of_isPrefixOf (sep s : List Char) (hne : sep ≠ [])
    (h : sep.isPrefixOf s = true) : containsSub sep s = true := by
  cases s with
  | nil =>
    cases sep with
    | nil => exact absurd rfl hne
    | cons c cs => simp [List.isPrefixOf] at h
  | cons c rest => simp [containsSub, h]

theorem splitEqEq_of_not_contains (s : List Char)
    (h : containsSub ['=', '='] s = false) : splitEqEq s = [s] := by
  induction s with
  | nil => rfl
  | cons c rest ih =>
    simp only [containsSub, Bool.or_eq_false_iff] at h
    obtain ⟨h1, h2⟩ := h
    rw [splitEqEq.eq_def]
    split
    · rename_i heq
      simp at heq
    · rename_i rest' heq
      rw [heq] at h1
      simp [List.isPrefixOf] at h1
    · rename_i c' rest'' hno heq
      obtain ⟨hcc, hrest⟩ := List.cons_eq_cons.mp heq
      subst hcc
      subst hrest
      rw [ih h2]

theorem splitEqEq_append_sep (p t : List Char) (hp : ∀ c ∈ p, c ≠ '=') :
    splitEqEq (p ++ '=' :: '=' :: t) = p :: splitEqEq t := by
  induction p with
  | nil => rfl
  | cons c p' ih =>
    have hc : c ≠ '=' := hp c (by simp)
    have hp' : ∀ x ∈ p', x ≠ '=' := fun x hx => hp x (by simp [hx])
    rw [List.cons_append, splitEqEq.eq_def]
    split
    · rename_i heq
      simp at heq
    · rename_i rest' heq
      exact absurd (List.cons_eq_cons.mp heq).1 hc
    · rename_i c' rest'' hno heq
      obtain ⟨hcc, hrest⟩ := List.cons_eq_cons.mp heq
      subst hcc
      rw [← hrest, ih hp']

theorem containsSub_eqeq_snoc (v : List Char) (q : Char)
    (hv : containsSub ['=', '='] v = false) (hq : q ≠ '=') :
    containsSub ['=', '='] (v ++ [q]) = false := by
  induction v with
  | nil =>
    simp [containsSub, List.isPrefixOf, Ne.symm hq]
  | cons c v' ih =>
    simp only [containsSub, Bool.or_eq_false_iff] at hv
    obtain ⟨h1, h2⟩ := hv
    simp only [List.cons_append, containsSub, Bool.or_eq_false_iff]
    refine ⟨?_, ih h2⟩
    cases v' with
    | nil => simp [List.isPrefixOf, Ne.symm hq]
    | cons d v'' => simpa [List.isPrefixOf] using h1

theorem dropWhile_noop_of_head (p : Char → Bool) (l : List Char)
    (h : ∀ c, l.head? = some c → p c = false) : l.dropWhile p = l := by
  cases l with
  | nil => rfl
  | cons a l' => simp [List.dropWhile, h a rfl]

/-- C2 counterexample: the condition `"xenv == 'dev'"` matches none of the
claim's grammar forms (it is neither literal, nor of the shape
`env == '<value>'`), so by the claim it should evaluate to `false` for every
environment — but the code's substring test `"env ==" in condition` accepts
it and it evaluates to `true` in environment `"dev"`. -/
theorem evaluate_condition_claim_counterexample :
    evaluate_condition "xenv == \x27dev\x27" "dev" = true := by decide

/-- C2 (amended): `"true"` and `"false"` are literals; a condition that is
neither literal and does not contain the substring `"env =="` evaluates to
`false`; and a condition containing `"env =="` is treated as an equality
test — the text after the first `"=="`, stripped of surrounding whitespace
and quote characters, is compared with the environment.  In particular the
well-formed tests `env == '<value>'` (either quote style) whose value
contains no `"=="` and neither starts nor ends with a quote character
evaluate to true exactly when the environment equals the value. -/
theorem evaluate_condition_amended (env : String) :
    evaluate_condition "true" env = true ∧
    evaluate_condition "false" env = false ∧
    (∀ c : String, c ≠ "true" → c ≠ "false" →
      containsSub "env ==".data c.data = false → evaluate_condition c env = false) ∧
    (∀ (q : Char) (v : String), (q = squote ∨ q = dquote) →
      containsSub ['=', '='] v.data = false →
      (∀ c, v.data.head? = some c → isQuoteChar c = false) →
      (∀ c, v.data.getLast? = some c → isQuoteChar c = false) →
      evaluate_condition (String.mk ("env == ".data ++ q :: (v.data ++ [q]))) env
        = decide (env = v)) := by
  refine ⟨rfl, rfl, ?_, ?_⟩
  · intro c hct hcf hsub
    unfold evaluate_condition evalCondChars
    rw [if_neg (fun h => hct (String.ext h)), if_neg (fun h => hcf (String.ext h)), hsub]
    rfl
  · intro q v hq hv hvh hvt
    have hqeq : q ≠ '=' := by
      rcases hq with h | h <;> subst h <;> decide
    have hqws : Char.isWhitespace q = false := by
      rcases hq with h | h <;> subst h <;> decide
    have hqquote : isQuoteChar q = true := by
      rcases hq with h | h <;> subst h <;> simp [isQuoteChar, squote, dquote]
    -- the condition decomposed around the separator "=="
    have hsplitform : "env == ".data ++ q :: (v.data ++ [q])
        = "env ".data ++ '=' :: '=' :: (' ' :: q :: (v.data ++ [q])) := rfl
    have htail : containsSub ['=', '='] (' ' :: q :: (v.data ++ [q])) = false := by
      simp only [containsSub, Bool.or_eq_false_iff]
      refine ⟨by simp [List.isPrefixOf], ⟨by simp [List.isPrefixOf, Ne.symm hqeq], ?_⟩⟩
      exact containsSub_eqeq_snoc v.data q hv hqeq
    unfold evaluate_condition evalCondChars
    rw [if_neg, if_neg]
    · rw [if_pos]
      · have hsplit : splitEqEq ("env == ".data ++ q :: (v.data ++ [q]))
            = ["env ".data, ' ' :: q :: (v.data ++ [q])] := by
          rw [hsplitform, splitEqEq_append_sep "env ".data _ (by decide),
            splitEqEq_of_not_contains _ htail]
        show decide _ = _
        rw [hsplit]
        have hstrip1 : py_strip_ws (' ' :: q :: (v.data ++ [q])) = q :: (v.data ++ [q]) := by
          unfold py_strip_ws
          have h1 : List.dropWhile Char.isWhitespace (' ' :: q :: (v.data ++ [q]))
              = q :: (v.data ++ [q]) := by
            simp [List.dropWhile, hqws]
          rw [h1]
          have h2 : (q :: (v.data ++ [q])).reverse = q :: (v.data.reverse ++ [q]) := by
            simp
          rw [h2, dropWhile_noop_of_head _ _ (fun c hc => by
            simp only [List.head?] at hc
            rw [← Option.some_inj.mp hc]
            exact hqws), ← h2, List.reverse_reverse]
        rw [List.getD_cons_succ, List.getD_cons_zero, hstrip1]
        have hstrip2 : py_strip_quotes (q :: (v.data ++ [q])) = v.data := by
          unfold py_strip_quotes
          have h1 : List.dropWhile isQuoteChar (q :: (v.data ++ [q]))
              = List.dropWhile isQuoteChar (v.data ++ [q]) := by
            simp [List.dropWhile, hqquote]
          rw [h1]
          cases hvd : v.data with
          | nil => simp [List.dropWhile, hqquote]
          | cons c v' =>
            have hc : isQuoteChar c = false := hvh c (by rw [hvd]; rfl)
            have h2 : List.dropWhile isQuoteChar ((c :: v') ++ [q]) = (c :: v') ++ [q] := by
              simp [List.dropWhile, hc]
            rw [h2]
            have h3 : ((c :: v') ++ [q]).reverse = q :: (c :: v').reverse := by simp
            rw [h3]
            have h4 : List.dropWhile isQuoteChar (q :: (c :: v').reverse)
                = List.dropWhile isQuoteChar (c :: v').reverse := by
              simp [List.dropWhile, hqquote]
            rw [h4, dropWhile_noop_of_head _ _ (fun d hd => by
              rw [List.head?_reverse] at hd
              exact hvt d (by rw [hvd]; exact hd)), List.reverse_reverse]
        rw [hstrip2]
        exact decide_eq_decide.mpr (Iff.symm String.ext_iff)
      · rw [hsplitform]
        exact containsSub_of_isPrefixOf _ _ (by decide)
          (by rw [List.isPrefixOf_iff_prefix]
              exact ⟨' ' :: q :: (v.data ++ [q]), rfl⟩)
    · intro h
      have := congrArg List.length h
      simp at this
    · intro h
      have := congrArg List.length h
      simp at this

/-- Witness for C2: the literals, an unparseable condition, and a
well-formed single-quoted equality test, all at concrete inputs. -/
theorem evaluate_condition_amended_witness :
    evaluate_condition "true" "dev" = true ∧
    (containsSub "env ==".data "garbage".data = false ∧
      evaluate_condition "garbage" "dev" = false) ∧
    (containsSub ['=', '='] "dev".data = false ∧
      evaluate_condition (String.mk ("env == ".data ++ squote :: ("dev".data ++ [squote])))
        "dev" = decide ("dev" = "dev")) :=
  ⟨(evaluate_condition_amended "dev").1,
   ⟨by decide, (evaluate_condition_amended "dev").2.2.1 "garbage" (by decide) (by decide)
      (by decide)⟩,
   ⟨by decide, (evaluate_condition_amended "dev").2.2.2 squote "dev" (Or.inl rfl) (by decide)
      (by decide) (by decide)⟩⟩

/-! ### C3: rest_fetch pagination -/

theorem restFetchGo_count_le_fuel {α : Type} (resp : Nat → Except String (RestResponse α))
    (pg : Option PaginationConfig) :
    ∀ (fuel page : Nat) (acc : List α), (restFetchGo resp pg fuel page acc).2 ≤ fuel := by
  intro fuel
  induction fuel with
  | zero => intro page acc; simp [restFetchGo]
  | succ n ih =>
    intro page acc
    rw [restFetchGo]
    cases resp page with
    | error e => simp
    | ok r =>
      dsimp only
      split
      · simp
      · split
        · simp
        · split
          · simp
          · simpa using Nat.succ_le_succ (ih (page + 1) _)

theorem restFetchGo_single_of_none {α : Type} (resp : Nat → Except String (RestResponse α))
    (fuel page : Nat) (acc : List α) :
    (restFetchGo resp none (fuel + 1) page acc).2 = 1 := by
  rw [restFetchGo]
  cases resp page with
  | error e => rfl
  | ok r =>
    dsimp only
    split
    · rfl
    · rw [if_pos]
      simp [Option.isNone]

theorem restFetchGo_stops_at {α : Type} (resp : Nat → Except String (RestResponse α))
    (pg : Option PaginationConfig) (p : Nat) (r : RestResponse α)
    (hresp : resp p = .ok r) (hlt : (RestResponse.toRecords r).length < pageSizeOf pg) :
    ∀ (fuel page : Nat) (acc : List α), page ≤ p →
      (restFetchGo resp pg fuel page acc).2 ≤ p + 1 - page := by
  intro fuel
  induction fuel with
  | zero => intro page acc _; simp [restFetchGo]
  | succ n ih =>
    intro page acc hpage
    have hone : 1 ≤ p + 1 - page := by omega
    rw [restFetchGo]
    cases hr : resp page with
    | error e => simpa using hone
    | ok r' =>
      dsimp only
      split
      · simpa using hone
      · split
        · simpa using hone
        · split
          · simpa using hone
          · rename_i hnonempty hcont _
            -- in the continue branch the page cannot be the short page p
            have hne : page ≠ p := by
              intro hpp
              subst hpp
              rw [hresp] at hr
              cases hr
              exact hcont (by simp [decide_eq_true_eq, hlt])
            have := ih (page + 1) (acc ++ r'.toRecords) (by omega)
            simp only []
            omega

/-- C3: the pagination loop of `rest_fetch` terminates with bounded requests:
never more than 100 pages; exactly one request when no pagination descriptor
is configured; no requests beyond a page that returns fewer records than the
page size; and zero accumulated records yield the no-data error (so a
successful fetch is never empty). -/
theorem rest_fetch_spec {α : Type} (resp : Nat → Except String (RestResponse α))
    (pg : Option PaginationConfig) :
    ((restFetchGo resp pg 100 1 []).2 ≤ 100) ∧
    (pg = none → (restFetchGo resp pg 100 1 []).2 = 1) ∧
    (∀ (p : Nat) (r : RestResponse α), 1 ≤ p → resp p = .ok r →
      (RestResponse.toRecords r).length < pageSizeOf pg →
      (restFetchGo resp pg 100 1 []).2 ≤ p) ∧
    ((restFetchGo resp pg 100 1 []).1 = .ok [] → rest_fetch resp pg = .error .noData) ∧
    (∀ data : List α, rest_fetch resp pg = .ok data → data ≠ []) := by
  refine ⟨restFetchGo_count_le_fuel resp pg 100 1 [], ?_, ?_, ?_, ?_⟩
  · intro h
    subst h
    exact restFetchGo_single_of_none resp 99 1 []
  · intro p r hp hresp hlt
    have := restFetchGo_stops_at resp pg p r hresp hlt 100 1 [] hp
    omega
  · intro h
    unfold rest_fetch
    rw [h]
    rfl
  · intro data h hdata
    subst hdata
    unfold rest_fetch at h
    rcases hgo : (restFetchGo resp pg 100 1 []).1 with e | d <;> rw [hgo] at h <;>
      dsimp only at h
    · cases h
    · by_cases hd : d.isEmpty = true
      · simp [hd] at h
      · simp [hd] at h
        subst h
        simp at hd

def respFull : Nat → Except String (RestResponse Nat) := fun _ => .ok (.jsonList [1, 2])

def respShort : Nat → Except String (RestResponse Nat) := fun p =>
  if p = 1 then .ok (.jsonList [1, 2]) else .ok (.jsonList [3])

def respEmpty : Nat → Except String (RestResponse Nat) := fun _ => .ok (.jsonList [])

def pgTwo : Option PaginationConfig := some ⟨"page", 2⟩

/-- Witness for C3: a source that always returns full pages stays within the
100-page ceiling; without pagination a single request is made; a short second
page stops the loop at two requests; an empty response raises the no-data
error. -/
theorem rest_fetch_spec_witness :
    ((restFetchGo respFull pgTwo 100 1 []).2 ≤ 100) ∧
    ((restFetchGo respFull none 100 1 []).2 = 1) ∧
    ((restFetchGo respShort pgTwo 100 1 []).2 ≤ 2) ∧
    (rest_fetch respEmpty pgTwo = .error .noData) :=
  ⟨(rest_fetch_spec respFull pgTwo).1,
   (rest_fetch_spec respFull none).2.1 rfl,
   (rest_fetch_spec respShort pgTwo).2.2.1 2 (.jsonList [3]) (by decide) (by decide) (by decide),
   (rest_fetch_spec respEmpty pgTwo).2.2.2.1 (by decide)⟩

/-! ### C7: SQL parameter substitution -/

theorem replaceGo_nil (pat rep : List Char) (fuel : Nat) : replaceGo pat rep fuel [] = [] := by
  cases fuel <;> rfl

theorem replaceGo_fuel_irrel (pat rep : List Char) (hpat : pat ≠ []) :
    ∀ (fuel1 fuel2 : Nat) (s : List Char), s.length ≤ fuel1 → s.length ≤ fuel2 →
      replaceGo pat rep fuel1 s = replaceGo pat rep fuel2 s := by
  intro fuel1
  induction fuel1 with
  | zero =>
    intro fuel2 s hs1 _
    have : s = [] := List.length_eq_zero.mp (Nat.le_zero.mp hs1)
    subst this
    rw [replaceGo_nil, replaceGo_nil]
  | succ n ih =>
    intro fuel2 s hs1 hs2
    cases s with
    | nil => rw [replaceGo_nil, replaceGo_nil]
    | cons c rest =>
      cases fuel2 with
      | zero => simp at hs2
      | succ m =>
        have hp1 : 1 ≤ pat.length := by
          cases pat with
          | nil => exact absurd rfl hpat
          | cons a l => simp
        simp only [replaceGo]
        by_cases hpre : pat.isPrefixOf (c :: rest) = true
        · rw [if_pos hpre, if_pos hpre]
          congr 1
          apply ih
          · simp only [List.length_drop, List.length_cons]
            simp only [List.length_cons] at hs1
            omega
          · simp only [List.length_drop, List.length_cons]
            simp only [List.length_cons] at hs2
            omega
        · rw [if_neg hpre, if_neg hpre]
          congr 1
          apply ih
          · simp only [List.length_cons] at hs1
            omega
          · simp only [List.length_cons] at hs2
            omega

theorem py_replace_cons_nodollar (pat' rep : List Char) (c : Char) (s : List Char)
    (hc : c ≠ '$') :
    py_replace (c :: s) ('$' :: pat') rep = c :: py_replace s ('$' :: pat') rep := by
  unfold py_replace
  simp only [List.length_cons, replaceGo]
  rw [if_neg]
  simp [List.isPrefixOf, Ne.symm hc]

theorem py_replace_append_nodollar (pat' rep p t : List Char) (hp : ∀ c ∈ p, c ≠ '$') :
    py_replace (p ++ t) ('$' :: pat') rep = p ++ py_replace t ('$' :: pat') rep := by
  induction p with
  | nil => rfl
  | cons c p' ih =>
    rw [List.cons_append, py_replace_cons_nodollar _ _ _ _ (hp c (by simp)),
      ih (fun x hx => hp x (by simp [hx]))]
    simp

theorem py_replace_consume (pat' rep t : List Char) :
    py_replace (('$' :: pat') ++ t) ('$' :: pat') rep = rep ++ py_replace t ('$' :: pat') rep := by
  unfold py_replace
  rw [List.cons_append]
  simp only [List.length_cons, replaceGo]
  rw [if_pos]
  · congr 1
    have hdrop : List.drop (pat'.length + 1) ('$' :: (pat' ++ t)) = t := by
      rw [List.drop_succ_cons]
      exact List.drop_left pat' t
    rw [hdrop]
    apply replaceGo_fuel_irrel _ _ (by simp)
    · simp
    · exact Nat.le_refl _
  · rw [List.isPrefixOf_iff_prefix, ← List.cons_append]
    exact ⟨t, rfl⟩

theorem py_replace_nodollar_id (pat' rep s : List Char) (hs : ∀ c ∈ s, c ≠ '$') :
    py_replace s ('$' :: pat') rep = s := by
  have h0 : py_replace ([] : List Char) ('$' :: pat') rep = [] := rfl
  have h := py_replace_append_nodollar pat' rep s [] hs
  rw [List.append_nil, h0, List.append_nil] at h
  exact h

/-- `placeholder key` always starts with the dollar character. -/
theorem placeholder_eq (key : List Char) :
    placeholder key = '$' :: (lbrace :: (key ++ [rbrace])) := rfl

theorem py_replace_intercalate (key rep : List Char) (parts : List (List Char))
    (hparts : ∀ part ∈ parts, ∀ c ∈ part, c ≠ '$') :
    py_replace (interc (placeholder key) parts) (placeholder key) rep = interc rep parts := by
  induction parts with
  | nil => rfl
  | cons p rest ih =>
    cases rest with
    | nil =>
      show py_replace p (placeholder key) rep = p
      rw [placeholder_eq]
      exact py_replace_nodollar_id _ _ p (hparts p (by simp))
    | cons q rest' =>
      have hp : ∀ c ∈ p, c ≠ '$' := hparts p (by simp)
      have hrest : ∀ part ∈ q :: rest', ∀ c ∈ part, c ≠ '$' :=
        fun part hpart => hparts part (by simp [hpart])
      show py_replace (p ++ placeholder key ++ interc (placeholder key) (q :: rest'))
          (placeholder key) rep = p ++ rep ++ interc rep (q :: rest')
      rw [List.append_assoc, List.append_assoc, placeholder_eq]
      rw [py_replace_append_nodollar _ _ p _ hp, py_replace_consume, ← placeholder_eq,
        ih hrest]

/-- C7: `run_sql` executes, against the view `source_data` bound to the
extracted dataset file, the query obtained by folding the literal textual
replacement of `${key}` by the mapped value over the parameter list; for a
template assembled from dollar-free segments around `${key}` placeholders,
substitution of that key replaces every placeholder occurrence with the raw
value (no escaping, no coercion). -/
theorem run_sql_spec (data_path : String) (sql_template : List Char)
    (params : List (List Char × List Char)) :
    ((run_sql data_path sql_template params).viewName = "source_data" ∧
     (run_sql data_path sql_template params).viewSource = data_path ∧
     (run_sql data_path sql_template params).query = substParams sql_template params) ∧
    (∀ (key value : List Char) (parts : List (List Char)),
      (∀ part ∈ parts, ∀ c ∈ part, c ≠ '$') →
      substParams (interc (placeholder key) parts) [(key, value)] = interc value parts) := by
  refine ⟨⟨rfl, rfl, rfl⟩, fun key value parts hparts => ?_⟩
  show py_replace (interc (placeholder key) parts) (placeholder key) value = interc value parts
  exact py_replace_intercalate key value parts hparts

/-- Witness for C7: substituting `start_date` into a small query template
replaces both placeholder occurrences with the raw value. -/
theorem run_sql_spec_witness :
    (∀ part ∈ [
      "SELECT * FROM source_data WHERE d >= ".data,
      " AND e <= ".data], ∀ c ∈ part, c ≠ '$') ∧
    substParams (interc (placeholder "start_date".data) [
      "SELECT * FROM source_data WHERE d >= ".data,
      " AND e <= ".data]) [("start_date".data, "2024-01-01".data)]
      = interc "2024-01-01".data [
      "SELECT * FROM source_data WHERE d >= ".data,
      " AND e <= ".data] :=
  ⟨by decide,
   (run_sql_spec "data.parquet" [] []).2 "start_date".data "2024-01-01".data
     ["SELECT * FROM source_data WHERE d >= ".data, " AND e <= ".data] (by decide)⟩

/-! ### C8: the run catalog -/

/-- The per-call arguments of one `record_run` invocation (minus the catalog
handle and the pipeline name). -/
structure RunCall where
  status : String
  rows_out : Option Int
  output_paths : Option (List (List Char))
  started_at : Option Nat
  ended_at : Option Nat
  error_message : Option String
deriving DecidableEq

def record_run_call (p : String) (db : Option (List RunRow)) (a : RunCall) :
    Option (List RunRow) :=
  record_run db p a.status a.rows_out a.output_paths a.started_at a.ended_at a.error_message

/-- A sequence of `record_run` calls for pipeline `p`, in order. -/
def recordAll (p : String) (calls : List RunCall) (db : Option (List RunRow)) :
    Option (List RunRow) :=
  calls.foldl (record_run_call p) db

def durOf (a : RunCall) : Option Int :=
  match a.started_at, a.ended_at with
  | some s, some e => some ((e : Int) - (s : Int))
  | _, _ => none

/-- The row `record_run` inserts for call `a` when `id - 1` rows precede it. -/
def storedRow (p : String) (id : Nat) (a : RunCall) : RunRow :=
  ⟨id, p, a.status, a.rows_out, json_dumps_list (a.output_paths.getD []),
    a.started_at, a.ended_at, durOf a, a.error_message⟩

def storedRows (p : String) (startId : Nat) : List RunCall → List RunRow
  | [] => []
  | a :: cs => storedRow p startId a :: storedRows p (startId + 1) cs

/-- The run returned by `get_pipeline_runs` for call `a`: the recorded data
with the output paths deserialized back to the recorded list. -/
def outRow (p : String) (id : Nat) (a : RunCall) : RunOut :=
  ⟨id, p, a.status, a.rows_out, a.output_paths.getD [],
    a.started_at, a.ended_at, durOf a, a.error_message⟩

def outRows (p : String) (startId : Nat) : List RunCall → List RunOut
  | [] => []
  | a :: cs => outRow p startId a :: outRows p (startId + 1) cs

/-- A path is JSON-clean when it contains no double quote and no comma (so
the unescaping embedding of `json.dumps` / `json.loads` is exact for it). -/
def cleanPath (path : List Char) : Bool :=
  path.all (fun c => !(c == dquote) && !(c == ','))

theorem splitCommaSpace_single (part : List Char) (h : ∀ c ∈ part, c ≠ ',') :
    splitCommaSpace part = [part] := by
  induction part with
  | nil => rfl
  | cons c p' ih =>
    rw [splitCommaSpace.eq_def]
    split
    · rename_i heq
      simp at heq
    · rename_i rest heq
      exact absurd (List.cons_eq_cons.mp heq).1 (h c (by simp))
    · rename_i c' rest hno heq
      obtain ⟨hcc, hrest⟩ := List.cons_eq_cons.mp heq
      subst hcc
      subst hrest
      rw [ih (fun x hx => h x (by simp [hx]))]

theorem splitCommaSpace_append_sep (part t : List Char) (h : ∀ c ∈ part, c ≠ ',') :
    splitCommaSpace (part ++ ',' :: ' ' :: t) = part :: splitCommaSpace t := by
  induction part with
  | nil => rfl
  | cons c p' ih =>
    rw [List.cons_append, splitCommaSpace.eq_def]
    split
    · rename_i heq
      simp at heq
    · rename_i rest heq
      exact absurd (List.cons_eq_cons.mp heq).1 (h c (by simp))
    · rename_i c' rest hno heq
      obtain ⟨hcc, hrest⟩ := List.cons_eq_cons.mp heq
      subst hcc
      rw [← hrest, ih (fun x hx => h x (by simp [hx]))]

theorem splitCommaSpace_interc (parts : List (List Char))
    (h : ∀ part ∈ parts, ∀ c ∈ part, c ≠ ',') (hne : parts ≠ []) :
    splitCommaSpace (interc [',', ' '] parts) = parts := by
  induction parts with
  | nil => exact absurd rfl hne
  | cons p rest ih =>
    cases rest with
    | nil =>
      show splitCommaSpace p = [p]
      exact splitCommaSpace_single p (h p (by simp))
    | cons q rest' =>
      show splitCommaSpace (p ++ [',', ' '] ++ interc [',', ' '] (q :: rest')) = _
      rw [List.append_assoc]
      rw [show ([',', ' '] ++ interc [',', ' '] (q :: rest'))
            = ',' :: ' ' :: interc [',', ' '] (q :: rest') from rfl]
      rw [splitCommaSpace_append_sep p _ (h p (by simp)),
        ih (fun part hpart => h part (by simp [hpart])) (by simp)]

theorem json_roundtrip (paths : List (List Char))
    (h : ∀ path ∈ paths, cleanPath path = true) :
    json_loads_list (json_dumps_list paths) = some paths := by
  cases paths with
  | nil => rfl
  | cons p rest =>
    have hclean : ∀ path ∈ p :: rest, ∀ c ∈ path, c ≠ dquote ∧ c ≠ ',' := by
      intro path hpath c hc
      have := h path hpath
      unfold cleanPath at this
      rw [List.all_eq_true] at this
      have hcc := this c hc
      constructor
      · intro he; subst he; simp at hcc
      · intro he; subst he; simp at hcc
    have hnocomma : ∀ part ∈ (p :: rest).map jsonQuote, ∀ c ∈ part, c ≠ ',' := by
      intro part hpart c hc
      obtain ⟨path, hpath, rfl⟩ := List.mem_map.mp hpart
      unfold jsonQuote at hc
      rcases List.mem_cons.mp hc with h1 | h2
      · subst h1; decide
      · rcases List.mem_append.mp h2 with h3 | h4
        · exact (hclean path hpath c h3).2
        · rcases List.mem_singleton.mp h4 with rfl
          decide
    unfold json_dumps_list json_loads_list
    have hinner : interc [',', ' '] ((p :: rest).map jsonQuote) ≠ [] := by
      cases rest with
      | nil => simp [interc, jsonQuote]
      | cons q rest' => simp [List.map_cons, interc, jsonQuote]
    have hlast : (interc [',', ' '] ((p :: rest).map jsonQuote) ++ [']']).getLast?
        = some ']' := List.getLast?_concat _
    dsimp only
    rw [if_pos rfl, if_neg, if_pos]
    · rw [List.dropLast_concat,
        splitCommaSpace_interc _ hnocomma (by simp [List.map_cons])]
      rw [if_pos]
      · congr 1
        rw [List.map_map]
        have hmapid : ∀ path ∈ p :: rest, (unquoteItem ∘ jsonQuote) path = id path := by
          intro path _
          simp only [Function.comp_apply, unquoteItem, jsonQuote, id_eq,
            List.drop_succ_cons, List.drop_zero, List.dropLast_concat]
        rw [List.map_congr_left hmapid, List.map_id]
      · rw [List.all_eq_true]
        intro item hitem
        obtain ⟨path, _, rfl⟩ := List.mem_map.mp hitem
        have hl : (dquote :: (path ++ [dquote])).getLast? = some dquote := by
          rw [show dquote :: (path ++ [dquote]) = (dquote :: path) ++ [dquote] from rfl]
          exact List.getLast?_concat _
        unfold isQuotedItem jsonQuote
        simp [hl]
    · rw [hlast]
      rfl
    · intro habs
      apply hinner
      have hlen := congrArg List.length habs
      simp only [List.length_append, List.length_cons, List.length_nil] at hlen
      exact List.length_eq_zero.mp (by omega)

theorem recordAll_some (p : String) (calls : List RunCall) :
    ∀ rows : List RunRow,
      recordAll p calls (some rows) = some (rows ++ storedRows p (rows.length + 1) calls) := by
  induction calls with
  | nil => intro rows; simp [recordAll, storedRows]
  | cons a cs ih =>
    intro rows
    show recordAll p cs (record_run_call p (some rows) a) = _
    have hstep : record_run_call p (some rows) a
        = some (rows ++ [storedRow p (rows.length + 1) a]) := rfl
    rw [hstep, ih]
    simp [storedRows, List.append_assoc]

theorem insertDescRun_last (r : RunRow) (l : List RunRow)
    (h : ∀ x ∈ l, tsLe x.started_at r.started_at = false) :
    insertDescRun r l = l ++ [r] := by
  induction l with
  | nil => rfl
  | cons x xs ih =>
    have hx : tsLe x.started_at r.started_at = false := h x (by simp)
    simp only [insertDescRun, hx, Bool.false_eq_true, if_false]
    rw [ih (fun y hy => h y (by simp [hy]))]
    simp

theorem orderByStartedDesc_reverse (l : List RunRow)
    (h : l.Pairwise (fun a b => tsLe b.started_at a.started_at = false)) :
    orderByStartedDesc l = l.reverse := by
  induction l with
  | nil => rfl
  | cons r rs ih =>
    rw [List.pairwise_cons] at h
    obtain ⟨hr, hrs⟩ := h
    simp only [orderByStartedDesc]
    rw [ih hrs, insertDescRun_last r rs.reverse (fun x hx => hr x (List.mem_reverse.mp hx)),
      List.reverse_cons]

theorem mem_storedRows (p : String) (calls : List RunCall) :
    ∀ (k : Nat) (r : RunRow), r ∈ storedRows p k calls →
      ∃ a ∈ calls, r.started_at = a.started_at ∧ r.pipeline = p := by
  induction calls with
  | nil => intro k r hr; simp [storedRows] at hr
  | cons a cs ih =>
    intro k r hr
    rcases List.mem_cons.mp hr with h1 | h2
    · exact ⟨a, by simp, by subst h1; rfl, by subst h1; rfl⟩
    · obtain ⟨b, hb, hbs⟩ := ih (k + 1) r h2
      exact ⟨b, by simp [hb], hbs⟩

theorem storedRows_pairwise (p : String) (calls : List RunCall)
    (h : calls.Pairwise (fun a b => tsLe b.started_at a.started_at = false)) :
    ∀ k, (storedRows p k calls).Pairwise
      (fun x y => tsLe y.started_at x.started_at = false) := by
  induction calls with
  | nil => intro k; exact List.Pairwise.nil
  | cons a cs ih =>
    rw [List.pairwise_cons] at h
    obtain ⟨ha, hcs⟩ := h
    intro k
    rw [show storedRows p k (a :: cs) = storedRow p k a :: storedRows p (k + 1) cs from rfl,
      List.pairwise_cons]
    refine ⟨?_, ih hcs (k + 1)⟩
    intro y hy
    obtain ⟨b, hb, hy1, _⟩ := mem_storedRows p cs (k + 1) y hy
    rw [hy1]
    exact ha b hb

theorem storedRows_filter (p : String) (calls : List RunCall) (k : Nat) :
    (storedRows p k calls).filter (fun r => r.pipeline == p) = storedRows p k calls := by
  rw [List.filter_eq_self]
  intro r hr
  obtain ⟨a, ha, hst, hp⟩ := mem_storedRows p calls k r hr
  simp [hp]

theorem storedRows_map_out (p : String) (calls : List RunCall)
    (hclean : ∀ a ∈ calls, ∀ path ∈ a.output_paths.getD [], cleanPath path = true) :
    ∀ k, (storedRows p k calls).map rowToOut = outRows p k calls := by
  induction calls with
  | nil => intro k; rfl
  | cons a cs ih =>
    intro k
    show rowToOut (storedRow p k a) :: (storedRows p (k + 1) cs).map rowToOut
        = outRow p k a :: outRows p (k + 1) cs
    congr 1
    · have hjson := json_roundtrip (a.output_paths.getD [])
        (fun path hpath => hclean a (by simp) path hpath)
      unfold rowToOut storedRow outRow
      dsimp only
      rw [show (json_dumps_list (a.output_paths.getD [])).isEmpty = false from rfl]
      simp only [Bool.false_eq_true, if_false]
      rw [hjson]
      rfl
    · exact ih (fun b hb => hclean b (by simp [hb])) (k + 1)

theorem outRows_length (p : String) (calls : List RunCall) :
    ∀ k, (outRows p k calls).length = calls.length := by
  induction calls with
  | nil => intro k; rfl
  | cons a cs ih =>
    intro k
    show (outRows p (k + 1) cs).length + 1 = cs.length + 1
    rw [ih (k + 1)]

/-- C8: starting from no catalog store, after the `record_run` calls in
`calls` (all for pipeline `p`, with strictly increasing `started_at` and
JSON-clean output paths), `get_pipeline_runs p L` returns exactly
`min L N` records, most-recent-first by `started_at`, with each record's
output paths deserialized back to the recorded list (`[]` when none was
given); and on a missing catalog store it returns the empty list rather than
an error. -/
theorem get_pipeline_runs_spec (p : String) (calls : List RunCall) (L : Nat)
    (hmono : calls.Pairwise (fun a b => tsLe b.started_at a.started_at = false))
    (hclean : ∀ a ∈ calls, ∀ path ∈ a.output_paths.getD [], cleanPath path = true) :
    get_pipeline_runs (recordAll p calls none) p L = ((outRows p 1 calls).reverse).take L ∧
    (get_pipeline_runs (recordAll p calls none) p L).length = min L calls.length ∧
    get_pipeline_runs none p L = [] := by
  have hmain : get_pipeline_runs (recordAll p calls none) p L
      = ((outRows p 1 calls).reverse).take L := by
    cases calls with
    | nil => simp [recordAll, get_pipeline_runs, outRows]
    | cons a cs =>
      have h1 : recordAll p (a :: cs) none = some (storedRows p 1 (a :: cs)) := by
        show recordAll p cs (record_run_call p none a) = _
        have h0 : record_run_call p none a = some ([] ++ [storedRow p 1 a]) := rfl
        rw [h0, recordAll_some]
        rfl
      rw [h1]
      show (((orderByStartedDesc
          ((storedRows p 1 (a :: cs)).filter (fun r => r.pipeline == p))).take L).map
        rowToOut) = _
      rw [storedRows_filter,
        orderByStartedDesc_reverse _ (storedRows_pairwise p (a :: cs) hmono 1),
        ← storedRows_map_out p (a :: cs) hclean 1, ← List.map_reverse, List.map_take]
  refine ⟨hmain, ?_, rfl⟩
  rw [hmain, List.length_take, List.length_reverse, outRows_length]

def callA : RunCall := ⟨"success", some 5, some ["out1.parquet".data], some 100, some 160, none⟩

def callB : RunCall := ⟨"failed", none, none, some 200, some 230, some "boom"⟩

/-- Witness for C8: two recorded runs come back most-recent-first with their
output paths, and a missing catalog yields the empty list. -/
theorem get_pipeline_runs_spec_witness :
    ([callA, callB].Pairwise (fun a b => tsLe b.started_at a.started_at = false) ∧
      (∀ a ∈ [callA, callB], ∀ path ∈ a.output_paths.getD [], cleanPath path = true)) ∧
    (get_pipeline_runs (recordAll "orders" [callA, callB] none) "orders" 10
        = ((outRows "orders" 1 [callA, callB]).reverse).take 10 ∧
      (get_pipeline_runs (recordAll "orders" [callA, callB] none) "orders" 10).length
        = min 10 [callA, callB].length ∧
      get_pipeline_runs none "orders" 10 = []) :=
  ⟨⟨by decide, by decide⟩,
   get_pipeline_runs_spec "orders" [callA, callB] 10 (by decide) (by decide)⟩

end DataOps
